import Mathlib

/-!
# Verification of the mpx-api collection-runner core

A shallow embedding of the interpolation + collection-execution + assertion
engine of the `mpx-api` repository:

* `src/lib/template.js` — `interpolate`, `interpolateObject`, and its local
  `getNestedValue`;
* `src/lib/utils.js` — the shared `getNestedValue` used by the assertion
  engine;
* `src/lib/assertion.js` — `runAssertions`, `evaluateOperators`,
  `formatOperators`, `deepEqual`;
* `src/lib/collection-runner.js` — `runCollection`.

JavaScript values are embedded as the tagged union `JVal`
(undefined / null / boolean / number / string / array / object).
Numbers are modelled as integers (`Int`): every numeric value the runner
manipulates in the claims under verification (statuses, response times,
counts, array indices) is integral, and `NaN` arises in the model only as
`Option.none` results of `toNumber`.  JavaScript exceptions (`TypeError`
from calling a missing method, `Object.entries` on `null`, non-iterable
`for..of` operands) are modelled as `Except.error` with a descriptive
message; code that cannot throw is modelled as a total function.

Strict equality (`===`) on objects and arrays is reference equality in
JavaScript; in the runner the two operands of every such comparison come
from unrelated allocations (a parsed response versus a literal from the
assertion map), so the embedding makes `===` false whenever either side is
an array or object.

Functions that iterate a JavaScript string via the regex
`/\{\{(.+?)\}\}/g` are modelled on `List Char` with an explicit fuel
argument (`interpGo`); fuel equal to the length of the scanned text is
always sufficient, and the public wrapper supplies exactly that.
-/

namespace Mpx

/-- The embedded JavaScript value universe (JSON plus `undefined`). -/
inductive JVal where
  | undefined
  | null
  | bool (b : Bool)
  | num (n : Int)
  | str (s : String)
  | arr (xs : List JVal)
  | obj (fs : List (String × JVal))

/-- JavaScript truthiness (`if (v)`).  Arrays and objects are truthy. -/
def jTruthy : JVal → Bool
  | .undefined => false
  | .null => false
  | .bool b => b
  | .num n => n != 0
  | .str s => s ≠ ""
  | .arr _ => true
  | .obj _ => true

/-- `v === undefined`. -/
def jIsUndef : JVal → Bool
  | .undefined => true
  | _ => false

/-- `v == null`, i.e. v is `null` or `undefined` (loose equality). -/
def jIsNullish : JVal → Bool
  | .undefined => true
  | .null => true
  | _ => false

/-- The `typeof` operator.  `typeof null`, arrays and objects are "object". -/
def jTypeof : JVal → String
  | .undefined => "undefined"
  | .null => "object"
  | .bool _ => "boolean"
  | .num _ => "number"
  | .str _ => "string"
  | .arr _ => "object"
  | .obj _ => "object"

/-- Look a key up in an object's field list (object keys are unique). -/
def jGetFields : List (String × JVal) → String → JVal
  | [], _ => .undefined
  | (k, v) :: rest, key => if k = key then v else jGetFields rest key

/-- Decimal digits to a natural number (`parseInt` on an all-digit string). -/
def digitsToNat (ds : List Char) : Nat :=
  ds.foldl (fun n c => n * 10 + (c.toNat - '0'.toNat)) 0

/-- A string key that denotes a canonical array index ("0", "17", but not
"00" or "+1"), as used by JavaScript indexed property access. -/
def decodeIndex (key : String) : Option Nat :=
  if key ≠ "" && key.data.all Char.isDigit &&
     (key = "0" || key.data.head? ≠ some '0') then
    some (digitsToNat key.data)
  else
    none

/-- Property access `v[key]` for a string key, total (returns `undefined`
where JavaScript would; the callers in the source never access a property
of `null`/`undefined` without guarding first). -/
def jGet : JVal → String → JVal
  | .obj fs, key => jGetFields fs key
  | .arr xs, key =>
      if key = "length" then .num xs.length
      else
        match decodeIndex key with
        | some i => (xs.get? i).getD .undefined
        | none => .undefined
  | .str s, key =>
      if key = "length" then .num s.length
      else
        match decodeIndex key with
        | some i =>
            match s.data.get? i with
            | some c => .str (String.mk [c])
            | none => .undefined
        | none => .undefined
  | _, _ => .undefined

/-- Property assignment on a field list: an existing key is updated in
place (keeping its position), a new key is appended — JavaScript object
insertion order. -/
def jSetFields : List (String × JVal) → String → JVal → List (String × JVal)
  | [], key, v => [(key, v)]
  | (k, w) :: rest, key, v =>
      if k = key then (k, v) :: rest else (k, w) :: jSetFields rest key v

/-- Property assignment `o[key] = v` (the runner only ever assigns into the
plain-object execution context). -/
def jSet (o : JVal) (key : String) (v : JVal) : JVal :=
  match o with
  | .obj fs => .obj (jSetFields fs key v)
  | other => other

/-- `Object.keys`: field names of an object, index strings of an array. -/
def jKeys : JVal → List String
  | .obj fs => fs.map Prod.fst
  | .arr xs => (List.range xs.length).map toString
  | _ => []

/-- Strict equality `===`.  Primitives compare by value; arrays/objects
compare by reference, which is always false between the independently
produced values flowing into the runner's comparisons. -/
def jStrictEq : JVal → JVal → Bool
  | .undefined, .undefined => true
  | .null, .null => true
  | .bool a, .bool b => a = b
  | .num a, .num b => a = b
  | .str a, .str b => a = b
  | _, _ => false

mutual

/-- `String(v)`: JavaScript string coercion.  Arrays stringify as their
comma-joined elements (with `null`/`undefined` elements as empty), plain
objects as "[object Object]". -/
def jToString : JVal → String
  | .undefined => "undefined"
  | .null => "null"
  | .bool b => if b then "true" else "false"
  | .num n => toString n
  | .str s => s
  | .arr xs => String.intercalate "," (jToStringElems xs)
  | .obj _ => "[object Object]"

/-- Elementwise stringification used by `Array.prototype.join`. -/
def jToStringElems : List JVal → List String
  | [] => []
  | x :: xs => (if jIsNullish x then "" else jToString x) :: jToStringElems xs

end

/-- ASCII whitespace as recognised by JavaScript trimming and `Number`. -/
def jsWhitespace (c : Char) : Bool :=
  c = ' ' || c = '\t' || c = '\n' || c = '\r' || c = '\x0b' || c = '\x0c'

/-- `String.prototype.trim` on the character list. -/
def trimChars (cs : List Char) : List Char :=
  ((cs.dropWhile jsWhitespace).reverse.dropWhile jsWhitespace).reverse

/-- `Number(s)` on a string, restricted to the integer fragment the runner
exercises: surrounding whitespace trimmed, empty string is `0`, an optional
sign followed by digits parses, anything else is `NaN` (`none`). -/
def strToNumber (s : String) : Option Int :=
  let t := String.mk (trimChars s.data)
  if t = "" then some 0
  else
    match t.data with
    | '-' :: ds => if ds ≠ [] && ds.all Char.isDigit then some (-(digitsToNat ds : Int)) else none
    | '+' :: ds => if ds ≠ [] && ds.all Char.isDigit then some (digitsToNat ds : Int) else none
    | ds => if ds.all Char.isDigit then some (digitsToNat ds : Int) else none

/-- `ToPrimitive` with number hint: primitives pass through, arrays become
their joined string, plain objects become "[object Object]". -/
def toPrimitive : JVal → JVal
  | .arr xs => .str (jToString (.arr xs))
  | .obj _ => .str "[object Object]"
  | v => v

/-- `ToNumber`: `none` models `NaN`.  Arrays and objects go through their
`ToPrimitive` string form. -/
def toNumber : JVal → Option Int
  | .undefined => none
  | .null => some 0
  | .bool b => some (if b then 1 else 0)
  | .num n => some n
  | .str s => strToNumber s
  | .arr xs => strToNumber (jToString (.arr xs))
  | .obj _ => strToNumber "[object Object]"

/-- The abstract relational comparison `x < y`: if both primitives are
strings, lexicographic; otherwise numeric after `ToNumber`, where `none`
(an operand is `NaN`) yields the *undefined* outcome `none`. -/
def jLtE (a b : JVal) : Option Bool :=
  match toPrimitive a, toPrimitive b with
  | .str x, .str y => some (decide (x < y))
  | pa, pb =>
      match toNumber pa, toNumber pb with
      | some x, some y => some (decide (x < y))
      | _, _ => none

/-- `a < b` (undefined outcome is false). -/
def jLtB (a b : JVal) : Bool := (jLtE a b).getD false

/-- `a > b` (undefined outcome is false). -/
def jGtB (a b : JVal) : Bool := (jLtE b a).getD false

/-- `a <= b`: false when `NaN` is involved, otherwise the negation of `b < a`. -/
def jLeB (a b : JVal) : Bool :=
  match jLtE b a with
  | some r => !r
  | none => false

/-- `a >= b`: false when `NaN` is involved, otherwise the negation of `a < b`. -/
def jGeB (a b : JVal) : Bool :=
  match jLtE a b with
  | some r => !r
  | none => false

/-- Does `needle` occur as a contiguous run inside `haystack`? -/
def hasInfix (needle : List Char) : List Char → Bool
  | [] => needle.isEmpty
  | c :: rest => needle.isPrefixOf (c :: rest) || hasInfix needle rest

/-- `actual.includes(value)`: substring containment for strings (the
argument is string-coerced), SameValueZero membership for arrays, and a
`TypeError` for any other receiver — numbers, booleans and plain objects
have no `includes` method. -/
def jIncludes (actual value : JVal) : Except String Bool :=
  match actual with
  | .str s => .ok (hasInfix (jToString value).data s.data)
  | .arr xs => .ok (xs.any (fun x => jStrictEq x value))
  | _ => .error "actual.includes is not a function"

/-- `Object.entries(v)`: throws on `null`/`undefined`; field pairs of an
object; index/value pairs of an array or string; empty for other
primitives. -/
def jEntries : JVal → Except String (List (String × JVal))
  | .undefined => .error "Cannot convert undefined or null to object"
  | .null => .error "Cannot convert undefined or null to object"
  | .obj fs => .ok fs
  | .arr xs => .ok (((List.range xs.length).map toString).zip xs)
  | .str s =>
      .ok (((List.range s.length).map toString).zip
        (s.data.map (fun c => .str (String.mk [c]))))
  | _ => .ok []

/-- `path.split('.')` on the character list: always returns at least one
(possibly empty) part, mirroring JavaScript's `String.prototype.split`. -/
def splitOnDot : List Char → List (List Char)
  | [] => [[]]
  | c :: rest =>
      if c = '.' then [] :: splitOnDot rest
      else
        match splitOnDot rest with
        | s :: ss => (c :: s) :: ss
        | [] => [[c]]

/-- The per-segment regex `/^(.+?)\[(\d+)\]$/`: splits a segment `key[n]`
into its (unique) key part and decimal index.  The key must be nonempty
and the bracketed part all digits at the very end of the segment. -/
def parseArraySuffix (part : String) : Option (String × Nat) :=
  match part.data.getLast? with
  | some ']' =>
      let body := part.data.dropLast
      let rds := body.reverse.takeWhile Char.isDigit
      match body.reverse.drop rds.length with
      | '[' :: rkey =>
          if rds.isEmpty || rkey.isEmpty then none
          else some (String.mk rkey.reverse, digitsToNat rds.reverse)
      | _ => none
  | _ => none

namespace Template

/-- The loop of `template.js`'s local `getNestedValue`: note the *falsy*
guard (`if (!current) return undefined`) on every iteration. -/
def getNestedGo : JVal → List (List Char) → JVal
  | current, [] => current
  | current, part :: rest =>
      if !jTruthy current then .undefined
      else
        let partS := String.mk part
        match parseArraySuffix partS with
        | some (key, idx) =>
            match jGet current key with
            | .arr xs => getNestedGo ((xs.get? idx).getD .undefined) rest
            | _ => .undefined
        | none => getNestedGo (jGet current partS) rest

/-- `getNestedValue(obj, path)` from `template.js`. -/
def getNestedValue (obj : JVal) (path : String) : JVal :=
  getNestedGo obj (splitOnDot path.data)

end Template

namespace Utils

/-- The loop of `utils.js`'s `getNestedValue`: guards only on
`null`/`undefined` (not general falsiness). -/
def getNestedGo : JVal → List (List Char) → JVal
  | current, [] => current
  | current, part :: rest =>
      if jIsNullish current then .undefined
      else
        let partS := String.mk part
        match parseArraySuffix partS with
        | some (key, idx) =>
            match jGet current key with
            | .arr xs => getNestedGo ((xs.get? idx).getD .undefined) rest
            | _ => .undefined
        | none => getNestedGo (jGet current partS) rest

/-- `getNestedValue(obj, path)` from `utils.js`, used by the assertion
engine. -/
def getNestedValue (obj : JVal) (path : String) : JVal :=
  getNestedGo obj (splitOnDot path.data)

end Utils

/-- A character the regex `.` can match (anything but a line terminator). -/
def dotChar (c : Char) : Bool := c ≠ '\n' && c ≠ '\r'

/-- After at least one placeholder-body character has been consumed, scan
lazily for the earliest closing `\x7d\x7d`, collecting body characters
(the lazy `.+?` of the placeholder regex stops at the first `\x7d\x7d`). -/
def innerScan : List Char → Option (List Char × List Char)
  | [] => none
  | c :: rest =>
      if c = '\x7d' ∧ rest.head? = some '\x7d' then some ([], rest.tail)
      else if dotChar c then
        match innerScan rest with
        | some (i, r) => some (c :: i, r)
        | none => none
      else none

/-- Attempt the body of `/\{\{(.+?)\}\}/` right after an opening `\x7b\x7b`:
at least one non-newline character, then lazily up to the first `\x7d\x7d`.
Returns the captured body and the remainder after the match. -/
def tryMatchInner : List Char → Option (List Char × List Char)
  | [] => none
  | c :: rest =>
      if dotChar c then
        match innerScan rest with
        | some (i, r) => some (c :: i, r)
        | none => none
      else none

/-- The global-replace scan of `text.replace(/\{\{(.+?)\}\}/g, fn)`:
`res` is the replacement computed from a captured body.  On a failed match
attempt at an opening brace the scan re-tries at the next character, as the
regex engine does.  Fuel bounds the recursion; any fuel of at least the
text length is sufficient, and every wrapper supplies exactly the length. -/
def interpGo (res : List Char → List Char) : Nat → List Char → List Char
  | 0, _ => []
  | _ + 1, [] => []
  | fuel + 1, c :: rest =>
      if c = '\x7b' ∧ rest.head? = some '\x7b' then
        match tryMatchInner rest.tail with
        | some (inner, after) => res inner ++ interpGo res fuel after
        | none => c :: interpGo res fuel rest
      else c :: interpGo res fuel rest

/-- A placeholder body the scan treats atomically: nonempty, every
character matchable by `.`, no internal `\x7d\x7d` and no trailing `\x7d`
(either would close the lazy match early). -/
def cleanBody : List Char → Bool
  | [] => true
  | c :: rest =>
      if c = '\x7d' ∧ (rest.head? = some '\x7d' ∨ rest = []) then false
      else dotChar c && cleanBody rest

/-- A placeholder body that is scanned atomically *and* is already
trimmed, so the captured path is the body itself. -/
def innerSafe (s : String) : Bool :=
  !s.data.isEmpty && cleanBody s.data && (trimChars s.data == s.data)

/-- The replacement callback of `interpolate`: trim the captured path; an
`env.`-prefixed path consults the process environment (empty values fall
back to the match text via `||`); any other path goes through the template
module's `getNestedValue` against the context, keeping the original
placeholder text when resolution yields `undefined`. -/
def resolvePlaceholder (procEnv : String → Option String) (ctx : JVal)
    (inner : String) : String :=
  let path := trimChars inner.data
  let matchText := "\x7b\x7b" ++ inner ++ "\x7d\x7d"
  if "env.".data.isPrefixOf path then
    match procEnv (String.mk (path.drop 4)) with
    | some v => if v = "" then matchText else v
    | none => matchText
  else
    match Template.getNestedValue ctx (String.mk path) with
    | .undefined => matchText
    | v => jToString v

/-- `interpolate(text, context)` from `template.js`; `procEnv` is the
ambient `process.env`.  Non-string inputs pass through unchanged. -/
def interpolate (procEnv : String → Option String) (text : JVal) (ctx : JVal) : JVal :=
  match text with
  | .str s =>
      .str (String.mk (interpGo
        (fun i => (resolvePlaceholder procEnv ctx (String.mk i)).data)
        s.data.length s.data))
  | v => v

mutual

/-- `interpolateObject(obj, context)`: strings are interpolated, arrays
map elementwise, objects map over values (keys untouched), every other
value passes through. -/
def interpolateObject (procEnv : String → Option String) (obj : JVal) (ctx : JVal) : JVal :=
  match obj with
  | .str s => interpolate procEnv (.str s) ctx
  | .arr xs => .arr (interpolateList procEnv xs ctx)
  | .obj fs => .obj (interpolateFields procEnv fs ctx)
  | v => v

/-- Elementwise interpolation of an array. -/
def interpolateList (procEnv : String → Option String) (xs : List JVal) (ctx : JVal) : List JVal :=
  match xs with
  | [] => []
  | x :: rest => interpolateObject procEnv x ctx :: interpolateList procEnv rest ctx

/-- Valuewise interpolation of an object's fields. -/
def interpolateFields (procEnv : String → Option String)
    (fs : List (String × JVal)) (ctx : JVal) : List (String × JVal) :=
  match fs with
  | [] => []
  | (k, v) :: rest => (k, interpolateObject procEnv v ctx) :: interpolateFields procEnv rest ctx

end

/-- `Array.isArray`. -/
def jIsArray : JVal → Bool
  | .arr _ => true
  | _ => false

mutual

/-- `deepEqual` from `assertion.js`: primitive strict equality, recursive
elementwise equality for arrays, key-count plus per-key recursion for
objects (JavaScript object keys are unique, so traversing the field list
is the key traversal). -/
def deepEqual (a b : JVal) : Bool :=
  if jStrictEq a b then true
  else if jIsNullish a || jIsNullish b then false
  else if jTypeof a ≠ jTypeof b then false
  else
    match a, b with
    | .arr xs, .arr ys => xs.length = ys.length && deepEqualList xs ys
    | .arr _, _ => false
    | .obj fs, b' => (jKeys (.obj fs)).length = (jKeys b').length && deepEqualFields fs b'
    | _, _ => false

/-- `a.every((item, i) => deepEqual(item, b[i]))` under equal lengths. -/
def deepEqualList : List JVal → List JVal → Bool
  | [], [] => true
  | x :: xs, y :: ys => deepEqual x y && deepEqualList xs ys
  | _, _ => false

/-- `keysA.every(key => deepEqual(a[key], b[key]))`. -/
def deepEqualFields : List (String × JVal) → JVal → Bool
  | [], _ => true
  | (k, v) :: rest, b => deepEqual v (jGet b k) && deepEqualFields rest b

end

mutual

/-- `JSON.stringify` as rendered inside a template literal (top-level
`undefined` prints as "undefined"); string escaping is omitted — the
assertion descriptions under verification contain no escapes. -/
def jsonStringify : JVal → String
  | .undefined => "undefined"
  | .null => "null"
  | .bool b => if b then "true" else "false"
  | .num n => toString n
  | .str s => "\"" ++ s ++ "\""
  | .arr xs => "[" ++ String.intercalate "," (jsonStringifyElems xs) ++ "]"
  | .obj fs => "\x7b" ++ String.intercalate "," (jsonStringifyFields fs) ++ "\x7d"

/-- Array elements: `undefined` serialises as "null". -/
def jsonStringifyElems : List JVal → List String
  | [] => []
  | x :: xs => (if jIsUndef x then "null" else jsonStringify x) :: jsonStringifyElems xs

/-- Object fields: `undefined`-valued keys are dropped. -/
def jsonStringifyFields : List (String × JVal) → List String
  | [] => []
  | (k, v) :: fs =>
      if jIsUndef v then jsonStringifyFields fs
      else ("\"" ++ k ++ "\":" ++ jsonStringify v) :: jsonStringifyFields fs

end

/-- One case of `formatOperators`' switch (unknown operators produce no
text). -/
def formatOperatorEntry (op : String) (value : JVal) : Option String :=
  if op = "eq" then some ("equals " ++ jToString value)
  else if op = "ne" then some ("does not equal " ++ jToString value)
  else if op = "gt" then some ("greater than " ++ jToString value)
  else if op = "gte" then some ("greater than or equal to " ++ jToString value)
  else if op = "lt" then some ("less than " ++ jToString value)
  else if op = "lte" then some ("less than or equal to " ++ jToString value)
  else if op = "contains" then some ("contains \"" ++ jToString value ++ "\"")
  else if op = "exists" then some (if jTruthy value then "exists" else "does not exist")
  else none

/-- `formatOperators(expected)`: human-readable " and "-joined rendering of
an operator object (only called after its entries were successfully
enumerated). -/
def formatOperators (expected : JVal) : String :=
  match jEntries expected with
  | .ok es => String.intercalate " and " (es.filterMap (fun kv => formatOperatorEntry kv.1 kv.2))
  | .error _ => ""

/-- One case of `evaluateOperators`' switch.  `none` is the `default`
(unknown operator); `some (.ok b)` means the operator was evaluated and
the loop continues iff `b`; `some (.error e)` is a thrown `TypeError`
(only `contains` on a truthy receiver without an `includes` method). -/
def evalOp (actual : JVal) (op : String) (value : JVal) : Option (Except String Bool) :=
  if op = "eq" then some (.ok (jStrictEq actual value))
  else if op = "ne" then some (.ok (!jStrictEq actual value))
  else if op = "gt" then some (.ok (jGtB actual value))
  else if op = "gte" then some (.ok (jGeB actual value))
  else if op = "lt" then some (.ok (jLtB actual value))
  else if op = "lte" then some (.ok (jLeB actual value))
  else if op = "contains" then
    some (if !jTruthy actual then .ok false else jIncludes actual value)
  else if op = "exists" then
    some (.ok (!(jTruthy value && jIsUndef actual) && !(!jTruthy value && !jIsUndef actual)))
  else none

/-- The loop of `evaluateOperators`: AND over the entries, returning false
on the first failing operator or on an unknown operator key. -/
def evaluateOperatorsGo (actual : JVal) : List (String × JVal) → Except String Bool
  | [] => .ok true
  | (op, value) :: rest =>
      match evalOp actual op value with
      | none => .ok false
      | some (.error e) => .error e
      | some (.ok false) => .ok false
      | some (.ok true) => evaluateOperatorsGo actual rest

/-- `evaluateOperators(actual, expected)` from `assertion.js`
(`Object.entries` of the operator object, then the AND loop). -/
def evaluateOperators (actual expected : JVal) : Except String Bool :=
  match jEntries expected with
  | .error e => .error e
  | .ok es => evaluateOperatorsGo actual es

/-- One entry of a `RequestResult.assertions` sequence. -/
structure AssertionResult where
  path : String
  expected : JVal
  actual : JVal
  passed : Bool
  description : String

/-- Lower-case an ASCII letter (`String.prototype.toLowerCase` on the
header-name fragment this code handles). -/
def asciiLower (c : Char) : Char :=
  if 'A' ≤ c && c ≤ 'Z' then Char.ofNat (c.toNat + 32) else c

/-- One iteration of `runAssertions`' entry loop: `.ok none` is the
silently skipped unknown-path case, `.error` a thrown `TypeError`. -/
def assertOne (response : JVal) (path : String) (expected : JVal) :
    Except String (Option AssertionResult) :=
  if path = "status" then
    let actual := jGet response "status"
    .ok (some ⟨path, expected, actual, jStrictEq actual expected,
      "Status code is " ++ jToString expected⟩)
  else if path = "responseTime" then
    let actual := jGet response "responseTime"
    if jTypeof expected = "object" then
      match evaluateOperators actual expected with
      | .error e => .error e
      | .ok b => .ok (some ⟨path, expected, actual, b,
          "Response time " ++ formatOperators expected⟩)
    else
      .ok (some ⟨path, expected, actual, jStrictEq actual expected,
        "Response time is " ++ jToString expected ++ "ms"⟩)
  else if "headers.".data.isPrefixOf path.data then
    let headerName := String.mk ((path.data.drop 8).map asciiLower)
    let actual := jGet (jGet response "headers") headerName
    if jTypeof expected = "string" then
      let desc := "Header " ++ headerName ++ " contains \"" ++ jToString expected ++ "\""
      if jStrictEq actual expected then .ok (some ⟨path, expected, actual, true, desc⟩)
      else if jTruthy actual then
        match jIncludes actual expected with
        | .error e => .error e
        | .ok b => .ok (some ⟨path, expected, actual, b, desc⟩)
      else .ok (some ⟨path, expected, actual, false, desc⟩)
    else if jTypeof expected = "object" then
      match evaluateOperators actual expected with
      | .error e => .error e
      | .ok b => .ok (some ⟨path, expected, actual, b,
          "Header " ++ headerName ++ " " ++ formatOperators expected⟩)
    else
      .ok (some ⟨path, expected, actual, false, ""⟩)
  else if "body.".data.isPrefixOf path.data then
    let bodyPath := String.mk (path.data.drop 5)
    let actual := Utils.getNestedValue (jGet response "body") bodyPath
    if jTypeof expected = "object" && !jIsArray expected then
      match evaluateOperators actual expected with
      | .error e => .error e
      | .ok b => .ok (some ⟨path, expected, actual, b,
          path ++ " " ++ formatOperators expected⟩)
    else
      .ok (some ⟨path, expected, actual, deepEqual actual expected,
        path ++ " equals " ++ jsonStringify expected⟩)
  else
    .ok none

/-- The entry loop of `runAssertions`: results in insertion order,
unknown-path entries skipped, exceptions propagate. -/
def assertLoop (response : JVal) : List (String × JVal) → Except String (List AssertionResult)
  | [] => .ok []
  | (path, expected) :: rest =>
      match assertOne response path expected with
      | .error e => .error e
      | .ok none => assertLoop response rest
      | .ok (some r) =>
          match assertLoop response rest with
          | .error e => .error e
          | .ok rs => .ok (r :: rs)

/-- `runAssertions(response, assertions)` from `assertion.js`. -/
def runAssertions (response assertions : JVal) : Except String (List AssertionResult) :=
  match jEntries assertions with
  | .error e => .error e
  | .ok es => assertLoop response es

/-- The externally visible outcome of one request. -/
structure RequestResult where
  name : JVal
  passed : Bool
  assertions : List AssertionResult
  error : Option String
  response : Option JVal

/-- The HTTP Client collaborator: `(method, url, options)` to either a
normalized response value or a thrown error message. -/
def HttpClient : Type := JVal → JVal → JVal → Except String JVal

/-- The URL build of `runCollection`: with a truthy `baseUrl`, a URL that
does not start with "http" gets the base prepended — calling `startsWith`
on a non-string URL throws; the (possibly combined) URL then passes through
interpolation again. -/
def resolveUrl (procEnv : String → Option String) (baseUrl : String) (ctx : JVal)
    (url : JVal) : Except String JVal :=
  if baseUrl ≠ "" then
    match url with
    | .str s =>
        let s' := if "http".data.isPrefixOf s.data then s else baseUrl ++ s
        .ok (interpolateObject procEnv (.str s') ctx)
    | _ => .error "url.startsWith is not a function"
  else
    .ok (interpolateObject procEnv url ctx)

/-- `interpolated.method || 'GET'`. -/
def effMethod (interp : JVal) : JVal :=
  if jTruthy (jGet interp "method") then jGet interp "method" else .str "GET"

/-- The request options assembled by `runCollection`: headers defaulted to
an empty object, a truthy `json` body preferred over a truthy raw `body`. -/
def buildOptions (interp : JVal) : JVal :=
  let headers := if jTruthy (jGet interp "headers") then jGet interp "headers" else .obj []
  if jTruthy (jGet interp "json") then .obj [("headers", headers), ("json", jGet interp "json")]
  else if jTruthy (jGet interp "body") then .obj [("headers", headers), ("body", jGet interp "body")]
  else .obj [("headers", headers)]

/-- One iteration of `runCollection`'s request loop (the whole `try`/
`catch` body): returns the `RequestResult` pushed for this request and the
execution context for the next iteration.  On a throw before dispatch or a
dispatch failure the context is unchanged; after a successful dispatch the
response is bound under the request's (original) name even if assertion
evaluation subsequently throws. -/
def runStep (procEnv : String → Option String) (client : HttpClient) (baseUrl : String)
    (ctx : JVal) (request : JVal) : RequestResult × JVal :=
  let rname := jGet request "name"
  let interp := interpolateObject procEnv request ctx
  match resolveUrl procEnv baseUrl ctx (jGet interp "url") with
  | .error e => (⟨rname, false, [], some e, none⟩, ctx)
  | .ok url =>
      match client (effMethod interp) url (buildOptions interp) with
      | .error e => (⟨rname, false, [], some e, none⟩, ctx)
      | .ok response =>
          let ctx' := jSet ctx (jToString rname) (.obj [("response", response)])
          if jTruthy (jGet interp "assert") then
            match runAssertions response (jGet interp "assert") with
            | .error e => (⟨rname, false, [], some e, some response⟩, ctx')
            | .ok results =>
                (⟨rname, results.all (fun a => a.passed), results, none, some response⟩, ctx')
          else
            let status := jGet response "status"
            (⟨rname, jGeB status (.num 200) && jLtB status (.num 400), [], none,
              some response⟩, ctx')

/-- `collection.requests || []` as a `for..of` operand: arrays iterate
their elements, falsy values give the empty default, strings iterate
their characters, and any other truthy value is not iterable and throws. -/
def requestsOf (collection : JVal) : Except String (List JVal) :=
  match collection with
  | .undefined => .error "Cannot read properties of undefined"
  | .null => .error "Cannot read properties of null"
  | c =>
      let r := jGet c "requests"
      if jTruthy r then
        match r with
        | .arr xs => .ok xs
        | .str s => .ok (s.data.map (fun ch => JVal.str (String.mk [ch])))
        | _ => .error "collection.requests is not iterable"
      else .ok []

/-- The request loop: thread the execution context through `runStep`,
collecting one `RequestResult` per request in order. -/
def runRequests (procEnv : String → Option String) (client : HttpClient) (baseUrl : String) :
    JVal → List JVal → List RequestResult
  | _, [] => []
  | ctx, r :: rs =>
      let step := runStep procEnv client baseUrl ctx r
      step.1 :: runRequests procEnv client baseUrl step.2 rs

/-- `runCollection(collection, { env, baseUrl })` from
`collection-runner.js`: seed the context with `{ env }`, run every request
in order, return all results.  The only failure that escapes is a
non-iterable `requests` value. -/
def runCollection (procEnv : String → Option String) (client : HttpClient)
    (collection : JVal) (env : JVal) (baseUrl : String) :
    Except String (List RequestResult) :=
  match requestsOf collection with
  | .error e => .error e
  | .ok reqs => .ok (runRequests procEnv client baseUrl (.obj [("env", env)]) reqs)

/-- An actual value on which a `contains` operator (or header substring
containment) cannot throw: falsy receivers short-circuit, strings and
arrays have an `includes` method. -/
def containsSafe (actual : JVal) : Bool :=
  !jTruthy actual || jIsArray actual || jTypeof actual == "string"

/-- An operator object whose evaluation against `actual` cannot throw:
its entries enumerate (it is not `null`/`undefined`) and any `contains`
entry meets `containsSafe`. -/
def opsSafe (actual expected : JVal) : Bool :=
  match jEntries expected with
  | .ok es => es.all (fun p => p.1 ≠ "contains" || containsSafe actual)
  | .error _ => false

/-- One assertion-map entry whose evaluation against `response` cannot
throw. -/
def assertEntrySafe (response : JVal) (path : String) (expected : JVal) : Bool :=
  if path = "status" then true
  else if path = "responseTime" then
    jTypeof expected ≠ "object" || opsSafe (jGet response "responseTime") expected
  else if "headers.".data.isPrefixOf path.data then
    let headerName := String.mk ((path.data.drop 8).map asciiLower)
    let actual := jGet (jGet response "headers") headerName
    if jTypeof expected = "string" then jStrictEq actual expected || containsSafe actual
    else if jTypeof expected = "object" then opsSafe actual expected
    else true
  else if "body.".data.isPrefixOf path.data then
    let actual := Utils.getNestedValue (jGet response "body") (String.mk (path.data.drop 5))
    jTypeof expected ≠ "object" || jIsArray expected || opsSafe actual expected
  else true

/-- An assertion map whose evaluation against `response` cannot throw. -/
def assertionsSafe (response assertions : JVal) : Bool :=
  match jEntries assertions with
  | .ok es => es.all (fun p => assertEntrySafe response p.1 p.2)
  | .error _ => false

/-- The empty process environment. -/
def emptyProcEnv : String → Option String := fun _ => none

/-- A process environment in which `FOO` is defined as the empty string. -/
def c6procEnv : String → Option String :=
  fun n => if n = "FOO" then some "" else none

/-- A process environment in which variable `A`'s value itself contains a
placeholder referencing variable `B`. -/
def c7procEnv : String → Option String :=
  fun n =>
    if n = "A" then some "x\x7b\x7benv.B\x7d\x7d"
    else if n = "B" then some "y" else none

/-- The response the mock client returns for the `login` request of the
chaining scenario: body `\x7btoken: "abc123"\x7d`. -/
def loginResp : JVal :=
  .obj [("status", .num 200), ("body", .obj [("token", .str "abc123")])]

/-- A mock HTTP client for the chaining scenario: the login URL gets
`loginResp`; any other dispatch succeeds and echoes its url and options
into the response so the dispatched values are observable. -/
def chainClient : HttpClient := fun _ url opts =>
  if jStrictEq url (.str "http://a/login") then .ok loginResp
  else .ok (.obj [("status", .num 200), ("echoUrl", url), ("echoOpts", opts)])

/-- The chaining-scenario collection: `login`, then `get-profile` whose
Authorization header references `login.response.body.token`. -/
def chainColl : JVal := .obj [("name", .str "T"), ("requests", .arr [
  .obj [("name", .str "login"), ("url", .str "http://a/login")],
  .obj [("name", .str "get-profile"), ("url", .str "http://a/me"),
        ("headers", .obj [("Authorization",
          .str "Bearer \x7b\x7blogin.response.body.token\x7d\x7d")])]])]

/-- A client that always fails dispatch with a DNS error on the first
request's URL and succeeds echoing the interpolated options otherwise. -/
def c2Client : HttpClient := fun _ url opts =>
  if jStrictEq url (.str "http://a/first") then .error "DNS lookup failed for http://a/first"
  else .ok (.obj [("status", .num 200), ("echoUrl", url), ("echoOpts", opts)])

/-- A two-request collection whose first request fails to dispatch and
whose second references the first's response. -/
def c2Coll : JVal := .obj [("name", .str "T"), ("requests", .arr [
  .obj [("name", .str "first"), ("url", .str "http://a/first")],
  .obj [("name", .str "second"), ("url", .str "http://a/second"),
        ("headers", .obj [("X-Prev",
          .str "\x7b\x7bfirst.response.body.id\x7d\x7d")])]])]

/-- A client returning a fixed response whose body is `\x7bx: 42\x7d`,
used to exercise assertion evaluation after a successful dispatch. -/
def c9Client : HttpClient := fun _ _ _ =>
  .ok (.obj [("status", .num 200), ("body", .obj [("x", .num 42)])])

/-- A request asserting `contains` on the numeric body field `x`, which
makes assertion evaluation throw after a successful dispatch. -/
def c9Request : JVal := .obj [("name", .str "r"), ("url", .str "http://a/x"),
  ("assert", .obj [("body.x", .obj [("contains", .str "4")])])]

/-! ## Lemmas about the placeholder scan -/

theorem interpGo_nil (res : List Char → List Char) (fuel : Nat) :
    interpGo res fuel [] = [] := by
  cases fuel <;> rfl

theorem innerScan_clean : ∀ l : List Char, cleanBody l = true → l ≠ [] →
    innerScan (l ++ ['\x7d', '\x7d']) = some (l, []) := by
  intro l
  induction l with
  | nil => intro _ h; exact absurd rfl h
  | cons c rest ih =>
    intro hc _
    simp only [cleanBody] at hc
    split at hc
    · simp at hc
    · rename_i hcond
      rw [Bool.and_eq_true] at hc
      rw [List.cons_append]
      simp only [innerScan]
      rw [if_neg, if_pos hc.1]
      · cases rest with
        | nil => rfl
        | cons d rest2 =>
          rw [ih hc.2 (by simp)]
      · cases rest with
        | nil =>
          intro hcon
          exact hcond ⟨hcon.1, Or.inr rfl⟩
        | cons d rest2 =>
          intro hcon
          simp only [List.cons_append, List.head?_cons] at hcon
          exact hcond ⟨hcon.1, Or.inl (by simpa using hcon.2)⟩

theorem tryMatchInner_clean : ∀ l : List Char, cleanBody l = true → l ≠ [] →
    tryMatchInner (l ++ ['\x7d', '\x7d']) = some (l, []) := by
  intro l hc hne
  cases l with
  | nil => exact absurd rfl hne
  | cons c rest =>
    simp only [cleanBody] at hc
    split at hc
    · simp at hc
    · rw [Bool.and_eq_true] at hc
      rw [List.cons_append]
      simp only [tryMatchInner]
      rw [if_pos hc.1]
      cases rest with
      | nil => rfl
      | cons d rest2 =>
        rw [innerScan_clean _ hc.2 (by simp)]

theorem interp_single (procEnv : String → Option String) (ctx : JVal) (inner : String)
    (h1 : cleanBody inner.data = true) (h2 : inner.data ≠ []) :
    interpolate procEnv (.str ("\x7b\x7b" ++ inner ++ "\x7d\x7d")) ctx
      = .str (resolvePlaceholder procEnv ctx inner) := by
  have hd : ("\x7b\x7b" ++ inner ++ "\x7d\x7d").data
      = '\x7b' :: '\x7b' :: (inner.data ++ ['\x7d', '\x7d']) := by
    simp [String.data_append]
  have hlen : ('\x7b' :: '\x7b' :: (inner.data ++ ['\x7d', '\x7d'])).length
      = (inner.data.length + 3) + 1 := by
    simp
  simp only [interpolate, hd, hlen]
  simp only [interpGo, List.head?_cons, List.tail_cons]
  rw [if_pos ⟨trivial, trivial⟩]
  rw [tryMatchInner_clean _ h1 h2]
  have h3 : inner.data.length + 3 = (inner.data.length + 2) + 1 := rfl
  rw [h3]
  dsimp only
  rw [interpGo_nil, List.append_nil]

theorem splitOnDot_ne_nil : ∀ cs : List Char, splitOnDot cs ≠ [] := by
  intro cs
  unfold splitOnDot
  split
  · simp
  · split
    · simp
    · split <;> simp

theorem template_getNestedGo_undef : ∀ parts, parts ≠ [] →
    Template.getNestedGo .undefined parts = .undefined := by
  intro parts h
  cases parts with
  | nil => exact absurd rfl h
  | cons p rest => simp [Template.getNestedGo, jTruthy]

theorem utils_getNestedGo_nullish : ∀ (parts : List (List Char)) (v : JVal),
    parts ≠ [] → jIsNullish v = true → Utils.getNestedGo v parts = .undefined := by
  intro parts v h hv
  cases parts with
  | nil => exact absurd rfl h
  | cons p rest => simp [Utils.getNestedGo, hv]

theorem template_getNestedGo_emptyObj (p : List Char) (rest : List (List Char)) :
    Template.getNestedGo (.obj []) (p :: rest) = .undefined := by
  simp only [Template.getNestedGo]
  rw [if_neg (by simp [jTruthy])]
  split
  · simp [jGet, jGetFields]
  · simp only [jGet, jGetFields]
    cases rest with
    | nil => rfl
    | cons q qs => exact template_getNestedGo_undef _ (by simp)

theorem template_getNestedValue_empty (path : String) :
    Template.getNestedValue (.obj []) path = .undefined := by
  unfold Template.getNestedValue
  obtain ⟨p, rest, hsplit⟩ : ∃ p rest, splitOnDot path.data = p :: rest := by
    cases h : splitOnDot path.data with
    | nil => exact absurd h (splitOnDot_ne_nil _)
    | cons a b => exact ⟨a, b, rfl⟩
  rw [hsplit]
  exact template_getNestedGo_emptyObj p rest

theorem innerScan_sound : ∀ cs i r, innerScan cs = some (i, r) →
    cs = i ++ '\x7d' :: '\x7d' :: r := by
  intro cs
  induction cs with
  | nil => intro i r h; exact absurd h (by simp [innerScan])
  | cons c rest ih =>
    intro i r h
    simp only [innerScan] at h
    split at h
    · rename_i hcond
      cases rest with
      | nil => simp at hcond
      | cons d t =>
        simp only [List.head?_cons, Option.some.injEq] at hcond
        obtain ⟨hc, hd⟩ := hcond
        simp only [List.tail_cons] at h
        obtain ⟨hi, hr⟩ := Prod.mk.injEq .. ▸ Option.some.injEq .. ▸ h
        subst hc hd
        simp [← hi, ← hr]
    · split at h
      · cases hscan : innerScan rest with
        | none => rw [hscan] at h; exact absurd h (by simp)
        | some p =>
          obtain ⟨i', r'⟩ := p
          rw [hscan] at h
          simp only [Option.some.injEq, Prod.mk.injEq] at h
          obtain ⟨hi, hr⟩ := h
          have := ih i' r' hscan
          subst hr
          rw [← hi, this]
          simp
      · exact absurd h (by simp)

theorem tryMatchInner_sound : ∀ cs i r, tryMatchInner cs = some (i, r) →
    cs = i ++ '\x7d' :: '\x7d' :: r := by
  intro cs i r h
  cases cs with
  | nil => exact absurd h (by simp [tryMatchInner])
  | cons c rest =>
    simp only [tryMatchInner] at h
    split at h
    · cases hscan : innerScan rest with
      | none => rw [hscan] at h; exact absurd h (by simp)
      | some p =>
        obtain ⟨i', r'⟩ := p
        rw [hscan] at h
        simp only [Option.some.injEq, Prod.mk.injEq] at h
        obtain ⟨hi, hr⟩ := h
        have := innerScan_sound rest i' r' hscan
        subst hr
        rw [← hi, this]
        simp
    · exact absurd h (by simp)

theorem interpGo_keep (res : List Char → List Char)
    (hres : ∀ inner, res inner = '\x7b' :: '\x7b' :: (inner ++ ['\x7d', '\x7d'])) :
    ∀ fuel cs, cs.length ≤ fuel → interpGo res fuel cs = cs := by
  intro fuel
  induction fuel with
  | zero =>
    intro cs h
    have : cs = [] := List.length_eq_zero.mp (Nat.le_zero.mp h)
    subst this
    rfl
  | succ fuel ih =>
    intro cs hlen
    cases cs with
    | nil => rfl
    | cons c rest =>
      simp only [List.length_cons, Nat.succ_le_succ_iff] at hlen
      simp only [interpGo]
      split
      · rename_i hcond
        obtain ⟨hc, hh⟩ := hcond
        cases rest with
        | nil => simp at hh
        | cons d t =>
          simp only [List.head?_cons, Option.some.injEq] at hh
          simp only [List.tail_cons]
          cases htm : tryMatchInner t with
          | some p =>
            obtain ⟨inner, after⟩ := p
            have hsound := tryMatchInner_sound t inner after htm
            have hafter : after.length ≤ fuel := by
              have ht : t.length = inner.length + (2 + after.length) := by
                rw [hsound]; simp [List.length_append]; omega
              simp only [List.length_cons] at hlen
              omega
            show res inner ++ interpGo res fuel after = c :: d :: t
            rw [hres inner, ih after hafter, hc, hh, hsound]
            simp
          | none =>
            show c :: interpGo res fuel (d :: t) = c :: d :: t
            rw [ih (d :: t) (by simpa using hlen)]
      · rw [ih rest hlen]

/-- Under the empty process environment and the empty context every
placeholder resolves to its own match text. -/
theorem resolvePlaceholder_empty (inner : String) :
    resolvePlaceholder emptyProcEnv (.obj []) inner
      = "\x7b\x7b" ++ inner ++ "\x7d\x7d" := by
  unfold resolvePlaceholder emptyProcEnv
  dsimp only
  split
  · rfl
  · rw [template_getNestedValue_empty]

/-- Resolution of an already-trimmed `env.`-prefixed path: look the
remainder up in the process environment; empty or missing values fall back
to the match text. -/
theorem resolvePlaceholder_env (procEnv : String → Option String) (ctx : JVal) (n : String)
    (ht : trimChars ("env." ++ n).data = ("env." ++ n).data) :
    resolvePlaceholder procEnv ctx ("env." ++ n)
      = match procEnv n with
        | some v => if v = "" then "\x7b\x7b" ++ ("env." ++ n) ++ "\x7d\x7d" else v
        | none => "\x7b\x7b" ++ ("env." ++ n) ++ "\x7d\x7d" := by
  have hdata : ("env." ++ n).data = 'e' :: 'n' :: 'v' :: '.' :: n.data := by
    rw [String.data_append]
    rfl
  unfold resolvePlaceholder
  dsimp only
  rw [ht, hdata]
  rw [if_pos (by simp [List.isPrefixOf])]
  have hdrop : ('e' :: 'n' :: 'v' :: '.' :: n.data).drop 4 = n.data := rfl
  rw [hdrop]

/-- Claim C6 (amended): an `env.`-prefixed placeholder looks the stripped
remainder up in the process environment; an undefined **or empty** value
leaves the original placeholder text in place, and a defined non-empty
value is substituted. -/
theorem claim_C6_amended (procEnv : String → Option String) (n v : String) (ctx : JVal)
    (hs : innerSafe ("env." ++ n) = true) :
    ((procEnv n = none ∨ procEnv n = some "") →
       interpolate procEnv (.str ("\x7b\x7b" ++ ("env." ++ n) ++ "\x7d\x7d")) ctx
         = .str ("\x7b\x7b" ++ ("env." ++ n) ++ "\x7d\x7d")) ∧
    (procEnv n = some v → v ≠ "" →
       interpolate procEnv (.str ("\x7b\x7b" ++ ("env." ++ n) ++ "\x7d\x7d")) ctx
         = .str v) := by
  simp only [innerSafe, Bool.and_eq_true, beq_iff_eq, Bool.not_eq_true'] at hs
  obtain ⟨⟨hne, hcb⟩, htr⟩ := hs
  have hne' : ("env." ++ n).data ≠ [] := by
    intro hx
    rw [hx] at hne
    simp at hne
  have hsingle := interp_single procEnv ctx ("env." ++ n) hcb hne'
  have henv := resolvePlaceholder_env procEnv ctx n htr
  constructor
  · intro hnv
    rw [hsingle, henv]
    rcases hnv with h | h <;> rw [h]
    simp
  · intro hv hne2
    rw [hsingle, henv, hv]
    simp [hne2]

/-- Claim C6 counterexample: `FOO` **is defined** (as the empty string),
yet interpolation leaves the placeholder text instead of substituting the
variable's value — the `||` fallback treats an empty value as undefined. -/
theorem claim_C6_counterexample :
    c6procEnv "FOO" = some "" ∧
    interpolate c6procEnv (.str "\x7b\x7benv.FOO\x7d\x7d") (.obj [])
      = .str "\x7b\x7benv.FOO\x7d\x7d" :=
  ⟨rfl, rfl⟩

theorem claim_C6_amended_witness :
    interpolate (fun nm => if nm = "FOO" then some "bar" else none)
        (.str ("\x7b\x7b" ++ ("env." ++ "FOO") ++ "\x7d\x7d")) (.obj [])
      = .str "bar" :=
  (claim_C6_amended (fun nm => if nm = "FOO" then some "bar" else none)
    "FOO" "bar" (.obj []) (by decide)).2 rfl (by decide)

/-- Claim C7 counterexample: with a process environment in which `A`'s
value itself contains a placeholder (`A = "x\x7b\x7benv.B\x7d\x7d"`,
`B = "y"`), interpolating `"\x7b\x7benv.A\x7d\x7d"` with the empty context
once yields `"x\x7b\x7benv.B\x7d\x7d"` but twice yields `"xy"` — so
interpolation with an empty context is not idempotent for every string. -/
theorem claim_C7_counterexample :
    interpolate c7procEnv
        (interpolate c7procEnv (.str "\x7b\x7benv.A\x7d\x7d") (.obj [])) (.obj [])
      ≠ interpolate c7procEnv (.str "\x7b\x7benv.A\x7d\x7d") (.obj []) := by
  intro h
  have h1 : interpolate c7procEnv
      (interpolate c7procEnv (.str "\x7b\x7benv.A\x7d\x7d") (.obj [])) (.obj [])
      = .str "xy" := rfl
  have h2 : interpolate c7procEnv (.str "\x7b\x7benv.A\x7d\x7d") (.obj [])
      = .str "x\x7b\x7benv.B\x7d\x7d" := rfl
  rw [h1, h2] at h
  injection h with h3
  exact absurd h3 (by decide)

/-- Claim C7 (amended): with an empty context **and an empty process
environment** interpolation is the identity on every string, hence
re-interpolating is stable (idempotence).  (As stated the claim fails
when the ambient process environment maps a variable to text containing a
placeholder; see the counterexample.) -/
theorem claim_C7_amended (s : String) :
    interpolate emptyProcEnv (.str s) (.obj []) = .str s ∧
    interpolate emptyProcEnv (interpolate emptyProcEnv (.str s) (.obj [])) (.obj [])
      = interpolate emptyProcEnv (.str s) (.obj []) := by
  have hres : ∀ inner : List Char,
      (resolvePlaceholder emptyProcEnv (.obj []) (String.mk inner)).data
        = '\x7b' :: '\x7b' :: (inner ++ ['\x7d', '\x7d']) := by
    intro inner
    rw [resolvePlaceholder_empty]
    rfl
  have hid : interpolate emptyProcEnv (.str s) (.obj []) = .str s := by
    simp only [interpolate]
    rw [interpGo_keep _ hres s.data.length s.data (Nat.le_refl _)]
  exact ⟨hid, by rw [hid]; exact hid⟩

theorem claim_C7_amended_witness :
    interpolate emptyProcEnv (.str "a \x7b\x7bmissing\x7d\x7d b") (.obj [])
      = .str "a \x7b\x7bmissing\x7d\x7d b" :=
  (claim_C7_amended "a \x7b\x7bmissing\x7d\x7d b").1

theorem utils_getNestedGo_badIndex (root : JVal) (part key : String) (n : Nat)
    (rest : List (List Char)) (hp : parseArraySuffix part = some (key, n))
    (ha : jIsArray (jGet root key) = false) :
    Utils.getNestedGo root (part.data :: rest) = .undefined := by
  simp only [Utils.getNestedGo]
  split
  · rfl
  · have hmk : String.mk part.data = part := rfl
    rw [hmk, hp]
    dsimp only
    cases hroot : jGet root key with
    | arr xs => rw [hroot] at ha; simp [jIsArray] at ha
    | undefined => rfl
    | null => rfl
    | bool b => rfl
    | num m => rfl
    | str s => rfl
    | obj fs => rfl

theorem template_getNestedGo_badIndex (root : JVal) (part key : String) (n : Nat)
    (rest : List (List Char)) (hp : parseArraySuffix part = some (key, n))
    (ha : jIsArray (jGet root key) = false) :
    Template.getNestedGo root (part.data :: rest) = .undefined := by
  simp only [Template.getNestedGo]
  split
  · rfl
  · have hmk : String.mk part.data = part := rfl
    rw [hmk, hp]
    dsimp only
    cases hroot : jGet root key with
    | arr xs => rw [hroot] at ha; simp [jIsArray] at ha
    | undefined => rfl
    | null => rfl
    | bool b => rfl
    | num m => rfl
    | str s => rfl
    | obj fs => rfl

/-- Claim C8: path resolution fails soft.  A segment with an index suffix
whose intermediate value is not an array resolves to `undefined` (in both
`getNestedValue` implementations); an absent (`null`/`undefined`)
intermediate before the path is consumed resolves to `undefined`; an
out-of-bounds index (`users[5]` against a one-element array) resolves to
`undefined`, so the placeholder is left verbatim while an in-bounds index
resolves. -/
theorem claim_C8 :
    (∀ (root : JVal) (part key : String) (n : Nat) (rest : List (List Char)),
       parseArraySuffix part = some (key, n) → jIsArray (jGet root key) = false →
       Utils.getNestedGo root (part.data :: rest) = .undefined ∧
       Template.getNestedGo root (part.data :: rest) = .undefined) ∧
    (∀ (v : JVal) (rest : List (List Char)), rest ≠ [] → jIsNullish v = true →
       Utils.getNestedGo v rest = .undefined ∧ Template.getNestedGo v rest = .undefined) ∧
    Utils.getNestedValue (.obj [("users", .arr [.obj [("name", .str "Alice")]])])
      "users[5].name" = .undefined ∧
    interpolate emptyProcEnv (.str "\x7b\x7busers[0].name\x7d\x7d")
      (.obj [("users", .arr [.obj [("name", .str "Alice")]])]) = .str "Alice" ∧
    interpolate emptyProcEnv (.str "\x7b\x7busers[5].name\x7d\x7d")
      (.obj [("users", .arr [.obj [("name", .str "Alice")]])])
      = .str "\x7b\x7busers[5].name\x7d\x7d" := by
  refine ⟨?_, ?_, rfl, rfl, rfl⟩
  · intro root part key n rest hp ha
    exact ⟨utils_getNestedGo_badIndex root part key n rest hp ha,
           template_getNestedGo_badIndex root part key n rest hp ha⟩
  · intro v rest hrest hv
    refine ⟨utils_getNestedGo_nullish rest v hrest hv, ?_⟩
    cases rest with
    | nil => exact absurd rfl hrest
    | cons p ps =>
      have hvt : jTruthy v = false := by
        cases v <;> simp_all [jIsNullish, jTruthy]
      simp [Template.getNestedGo, hvt]

theorem claim_C8_witness :
    Utils.getNestedGo (.obj [("users", .num 5)]) ("users[0]".data :: []) = .undefined ∧
    Utils.getNestedGo .null ["name".data] = .undefined :=
  ⟨(claim_C8.1 (.obj [("users", .num 5)]) "users[0]" "users" 0 [] rfl rfl).1,
   (claim_C8.2.1 .null ["name".data] (by simp) rfl).1⟩

/-- Claim C10: an empty operator object is vacuously true — evaluating
`\x7b\x7d` against any actual yields true, and an assertion entry such as
`body.missing: \x7b\x7d` (or `responseTime: \x7b\x7d`) produces a passing
`AssertionResult` even when the target path resolves to `undefined`. -/
theorem claim_C10 :
    (∀ actual : JVal, evaluateOperators actual (.obj []) = .ok true) ∧
    runAssertions (.obj [("body", .obj [])])
        (.obj [("body.missing", .obj []), ("responseTime", .obj [])])
      = .ok [⟨"body.missing", .obj [], .undefined, true, "body.missing "⟩,
             ⟨"responseTime", .obj [], .undefined, true, "Response time "⟩] := by
  exact ⟨fun actual => rfl, rfl⟩

theorem claim_C10_witness :
    evaluateOperators (.str "anything") (.obj []) = .ok true :=
  claim_C10.1 (.str "anything")

theorem splitOnDot_append_dot : ∀ (pre post : List Char), '.' ∉ pre →
    splitOnDot (pre ++ '.' :: post) = pre :: splitOnDot post := by
  intro pre
  induction pre with
  | nil => intro post _; rfl
  | cons c pre' ih =>
    intro post hdot
    have hc : c ≠ '.' := fun hx => hdot (hx ▸ List.mem_cons_self c pre')
    have hpre' : '.' ∉ pre' := fun hx => hdot (List.mem_cons_of_mem c hx)
    rw [List.cons_append]
    conv_lhs => rw [splitOnDot]
    rw [if_neg hc, ih post hpre']

theorem template_getNestedValue_unbound (ctx : JVal) (nm rest : String)
    (hdot : '.' ∉ nm.data) (hpa : parseArraySuffix nm = none)
    (hub : jGet ctx nm = .undefined) :
    Template.getNestedValue ctx (nm ++ ("." ++ rest)) = .undefined := by
  unfold Template.getNestedValue
  have hdata : (nm ++ ("." ++ rest)).data = nm.data ++ ('.' :: rest.data) := by
    simp [String.data_append]
  rw [hdata, splitOnDot_append_dot nm.data rest.data hdot]
  simp only [Template.getNestedGo]
  split
  · rfl
  · have hmk : String.mk nm.data = nm := rfl
    rw [hmk, hpa]
    dsimp only
    rw [hub]
    exact template_getNestedGo_undef _ (splitOnDot_ne_nil _)

theorem env_dot_prefix : ∀ (nm rest2 t : List Char),
    'e' :: 'n' :: 'v' :: '.' :: t = nm ++ '.' :: rest2 → '.' ∉ nm →
    nm = ['e', 'n', 'v'] := by
  intro nm
  match nm with
  | [] =>
    intro rest2 t h _
    rw [List.nil_append] at h
    injection h with h1 _
    exact absurd h1 (by decide)
  | [a] =>
    intro rest2 t h _
    simp only [List.cons_append, List.nil_append] at h
    injection h with _ h'
    injection h' with h2 _
    exact absurd h2 (by decide)
  | [a, b] =>
    intro rest2 t h _
    simp only [List.cons_append, List.nil_append] at h
    injection h with _ h'
    injection h' with _ h''
    injection h'' with h3 _
    exact absurd h3 (by decide)
  | [a, b, c] =>
    intro rest2 t h _
    simp only [List.cons_append, List.nil_append] at h
    injection h with h1 h'
    injection h' with h2 h''
    injection h'' with h3 _
    rw [← h1, ← h2, ← h3]
  | a :: b :: c :: d :: ds =>
    intro rest2 t h hdot
    simp only [List.cons_append] at h
    injection h with _ h'
    injection h' with _ h''
    injection h'' with _ h'''
    injection h''' with h4 _
    exact absurd (by rw [← h4]; simp : '.' ∈ a :: b :: c :: d :: ds) hdot

/-- Claim C1: when the URL step succeeds but the HTTP dispatch throws, the
request's result records the error message with `passed = false`, an empty
assertion list and `response = null`, the execution context is unchanged
(the request's name is not bound), and a later placeholder
`name.response...` referencing an unbound, dot-free, index-free name other
than `env` interpolates to its own literal text. -/
theorem claim_C1 (procEnv : String → Option String) (client : HttpClient)
    (baseUrl : String) (ctx request url : JVal) (e : String)
    (hurl : resolveUrl procEnv baseUrl ctx
        (jGet (interpolateObject procEnv request ctx) "url") = .ok url)
    (hcl : client (effMethod (interpolateObject procEnv request ctx)) url
        (buildOptions (interpolateObject procEnv request ctx)) = .error e) :
    runStep procEnv client baseUrl ctx request
      = (⟨jGet request "name", false, [], some e, none⟩, ctx) ∧
    (∀ nm suffix : String,
       jGet ctx nm = .undefined →
       '.' ∉ nm.data →
       nm ≠ "env" →
       parseArraySuffix nm = none →
       innerSafe (nm ++ (".response." ++ suffix)) = true →
       interpolate procEnv
           (.str ("\x7b\x7b" ++ (nm ++ (".response." ++ suffix)) ++ "\x7d\x7d")) ctx
         = .str ("\x7b\x7b" ++ (nm ++ (".response." ++ suffix)) ++ "\x7d\x7d")) := by
  constructor
  · unfold runStep
    dsimp only
    rw [hurl]
    dsimp only
    rw [hcl]
  · intro nm suffix hub hdot henv hpa hsafe
    simp only [innerSafe, Bool.and_eq_true, beq_iff_eq, Bool.not_eq_true'] at hsafe
    obtain ⟨⟨hne, hcb⟩, htr⟩ := hsafe
    have hne' : (nm ++ (".response." ++ suffix)).data ≠ [] := by
      intro hx
      rw [hx] at hne
      simp at hne
    rw [interp_single procEnv ctx _ hcb hne']
    unfold resolvePlaceholder
    dsimp only
    rw [htr]
    split
    · rename_i hpre
      exfalso
      rw [List.isPrefixOf_iff_prefix] at hpre
      have hdata : (nm ++ (".response." ++ suffix)).data
          = nm.data ++ ('.' :: ("response." ++ suffix).data) := by
        simp [String.data_append]
      rw [hdata] at hpre
      obtain ⟨t, ht⟩ := hpre
      have hnm3 : nm.data = ['e', 'n', 'v'] :=
        env_dot_prefix nm.data _ t ht hdot
      apply henv
      have : nm = String.mk nm.data := rfl
      rw [this, hnm3]
    · have hres := template_getNestedValue_unbound ctx nm ("response." ++ suffix) hdot hpa hub
      have hmk : String.mk (nm ++ (".response." ++ suffix)).data
          = nm ++ (".response." ++ suffix) := rfl
      rw [hmk]
      rw [show Template.getNestedValue ctx (nm ++ (".response." ++ suffix))
            = Template.getNestedValue ctx (nm ++ ("." ++ ("response." ++ suffix))) from rfl]
      rw [hres]

theorem claim_C1_witness :
    runStep emptyProcEnv (fun _ _ _ => .error "DNS lookup failed for http://a/x") ""
        (.obj [("env", .obj [])]) (.obj [("name", .str "login"), ("url", .str "http://a/x")])
      = (⟨.str "login", false, [], some "DNS lookup failed for http://a/x", none⟩,
         .obj [("env", .obj [])]) ∧
    interpolate emptyProcEnv
        (.str ("\x7b\x7b" ++ ("login" ++ (".response." ++ "body.token")) ++ "\x7d\x7d"))
        (.obj [("env", .obj [])])
      = .str ("\x7b\x7b" ++ ("login" ++ (".response." ++ "body.token")) ++ "\x7d\x7d") := by
  have h := claim_C1 emptyProcEnv (fun _ _ _ => .error "DNS lookup failed for http://a/x")
    "" (.obj [("env", .obj [])]) (.obj [("name", .str "login"), ("url", .str "http://a/x")])
    (.str "http://a/x") "DNS lookup failed for http://a/x" rfl rfl
  exact ⟨h.1, h.2 "login" "body.token" rfl (by decide) (by decide) rfl (by decide)⟩

theorem runStep_name (procEnv : String → Option String) (client : HttpClient)
    (baseUrl : String) (ctx request : JVal) :
    (runStep procEnv client baseUrl ctx request).1.name = jGet request "name" := by
  unfold runStep
  dsimp only
  split
  · rfl
  · split
    · rfl
    · split
      · split <;> rfl
      · rfl

theorem runRequests_length (procEnv : String → Option String) (client : HttpClient)
    (baseUrl : String) : ∀ (reqs : List JVal) (ctx : JVal),
    (runRequests procEnv client baseUrl ctx reqs).length = reqs.length := by
  intro reqs
  induction reqs with
  | nil => intro ctx; rfl
  | cons r rs ih =>
    intro ctx
    simp only [runRequests, List.length_cons, ih]

theorem runRequests_names (procEnv : String → Option String) (client : HttpClient)
    (baseUrl : String) : ∀ (reqs : List JVal) (ctx : JVal),
    (runRequests procEnv client baseUrl ctx reqs).map RequestResult.name
      = reqs.map (fun r => jGet r "name") := by
  intro reqs
  induction reqs with
  | nil => intro ctx; rfl
  | cons r rs ih =>
    intro ctx
    simp only [runRequests, List.map_cons, ih, runStep_name]

/-- Claim C2: whenever `collection.requests` iterates (an array, a string,
or a falsy default), `runCollection` returns one `RequestResult` per
request, in declaration order (witnessed by the names projecting back to
the requests' names), with every request processed by `runStep` — the loop
never short-circuits on a failure, since `runStep` is total. -/
theorem claim_C2 (procEnv : String → Option String) (client : HttpClient)
    (baseUrl : String) (collection env : JVal) (reqs : List JVal)
    (h : requestsOf collection = .ok reqs) :
    runCollection procEnv client collection env baseUrl
      = .ok (runRequests procEnv client baseUrl (.obj [("env", env)]) reqs) ∧
    (runRequests procEnv client baseUrl (.obj [("env", env)]) reqs).length = reqs.length ∧
    (runRequests procEnv client baseUrl (.obj [("env", env)]) reqs).map RequestResult.name
      = reqs.map (fun r => jGet r "name") := by
  refine ⟨?_, runRequests_length procEnv client baseUrl reqs _,
    runRequests_names procEnv client baseUrl reqs _⟩
  unfold runCollection
  rw [h]

theorem claim_C2_witness :
    runCollection emptyProcEnv c2Client c2Coll (.obj []) ""
      = .ok (runRequests emptyProcEnv c2Client "" (.obj [("env", .obj [])])
          [.obj [("name", .str "first"), ("url", .str "http://a/first")],
           .obj [("name", .str "second"), ("url", .str "http://a/second"),
             ("headers", .obj [("X-Prev",
               .str "\x7b\x7bfirst.response.body.id\x7d\x7d")])]]) ∧
    (runRequests emptyProcEnv c2Client "" (.obj [("env", .obj [])])
          [.obj [("name", .str "first"), ("url", .str "http://a/first")],
           .obj [("name", .str "second"), ("url", .str "http://a/second"),
             ("headers", .obj [("X-Prev",
               .str "\x7b\x7bfirst.response.body.id\x7d\x7d")])]]).length = 2 :=
  ⟨(claim_C2 emptyProcEnv c2Client "" c2Coll (.obj []) _ rfl).1,
   (claim_C2 emptyProcEnv c2Client "" c2Coll (.obj []) _ rfl).2.1⟩

/-- Claim C3: after a successful dispatch the response is bound into the
execution context under the request's (original) name as
`\x7b response \x7d` — whatever happens afterwards in the step — and in
the concrete chaining scenario (`login` returning body
`\x7btoken: "abc123"\x7d`, then `get-profile` with header
`Authorization: Bearer \x7b\x7blogin.response.body.token\x7d\x7d`) the
second request is dispatched with that header equal to "Bearer abc123",
observable in the echoed options of its response. -/
theorem claim_C3 (procEnv : String → Option String) (client : HttpClient)
    (baseUrl : String) (ctx request url response : JVal)
    (hurl : resolveUrl procEnv baseUrl ctx
        (jGet (interpolateObject procEnv request ctx) "url") = .ok url)
    (hcl : client (effMethod (interpolateObject procEnv request ctx)) url
        (buildOptions (interpolateObject procEnv request ctx)) = .ok response) :
    (runStep procEnv client baseUrl ctx request).2
      = jSet ctx (jToString (jGet request "name")) (.obj [("response", response)]) ∧
    runCollection emptyProcEnv chainClient chainColl (.obj []) ""
      = .ok [⟨.str "login", true, [], none, some loginResp⟩,
             ⟨.str "get-profile", true, [], none, some (.obj [("status", .num 200),
                ("echoUrl", .str "http://a/me"),
                ("echoOpts", .obj [("headers",
                  .obj [("Authorization", .str "Bearer abc123")])])])⟩] := by
  constructor
  · unfold runStep
    dsimp only
    rw [hurl]
    dsimp only
    rw [hcl]
    dsimp only
    split
    · split <;> rfl
    · rfl
  · rfl

theorem claim_C3_witness :
    (runStep emptyProcEnv chainClient "" (.obj [("env", .obj [])])
        (.obj [("name", .str "login"), ("url", .str "http://a/login")])).2
      = jSet (.obj [("env", .obj [])])
          (jToString (jGet (.obj [("name", .str "login"), ("url", .str "http://a/login")]) "name"))
          (.obj [("response", loginResp)]) :=
  (claim_C3 emptyProcEnv chainClient "" (.obj [("env", .obj [])])
    (.obj [("name", .str "login"), ("url", .str "http://a/login")])
    (.str "http://a/login") loginResp rfl rfl).1

/-! ## Lemmas about the operator evaluator -/

theorem jIncludes_safe (actual v : JVal) (ht : jTruthy actual = true)
    (hs : containsSafe actual = true) : ∃ b, jIncludes actual v = .ok b := by
  cases actual <;> simp_all [containsSafe, jTruthy, jIsArray, jTypeof, jIncludes]

theorem evalOp_no_error (actual : JVal) (op : String) (v : JVal)
    (h : op ≠ "contains" ∨ containsSafe actual = true) :
    ∀ e, evalOp actual op v ≠ some (.error e) := by
  intro e
  unfold evalOp
  split_ifs with h1 h2 h3 h4 h5 h6 h7 h8 h9
  · simp
  · simp
  · simp
  · simp
  · simp
  · simp
  · simp
  · rcases h with hop | hsafe
    · exact absurd h7 hop
    · intro hinc
      obtain ⟨b, hb⟩ := jIncludes_safe actual v (by simpa using h8) hsafe
      rw [hb] at hinc
      simp at hinc
  · simp
  · simp

theorem evaluateOperatorsGo_safe (actual : JVal) : ∀ es : List (String × JVal),
    (∀ p ∈ es, p.1 ≠ "contains" ∨ containsSafe actual = true) →
    ∃ b, evaluateOperatorsGo actual es = .ok b := by
  intro es
  induction es with
  | nil => intro _; exact ⟨true, rfl⟩
  | cons p rest ih =>
    intro h
    obtain ⟨op, v⟩ := p
    simp only [evaluateOperatorsGo]
    cases hop : evalOp actual op v with
    | none => exact ⟨false, rfl⟩
    | some r =>
      cases r with
      | error e =>
        exact absurd hop (evalOp_no_error actual op v (h _ (List.mem_cons_self _ _)) e)
      | ok b =>
        cases b with
        | false => exact ⟨false, rfl⟩
        | true => exact ih (fun p hp => h p (List.mem_cons_of_mem _ hp))

theorem evaluateOperators_safe (actual expected : JVal)
    (h : opsSafe actual expected = true) :
    ∃ b, evaluateOperators actual expected = .ok b := by
  unfold opsSafe at h
  unfold evaluateOperators
  cases hent : jEntries expected with
  | error e => rw [hent] at h; simp at h
  | ok es =>
    rw [hent] at h
    apply evaluateOperatorsGo_safe
    intro p hp
    have hb := List.all_eq_true.mp h p hp
    simp only [Bool.or_eq_true, decide_eq_true_eq] at hb
    exact hb

theorem assertOne_safe (response : JVal) (path : String) (expected : JVal)
    (h : assertEntrySafe response path expected = true) :
    ∃ r, assertOne response path expected = .ok r := by
  unfold assertEntrySafe at h
  unfold assertOne
  by_cases hst : path = "status"
  · rw [if_pos hst]
    exact ⟨_, rfl⟩
  · rw [if_neg hst] at h ⊢
    by_cases hrt : path = "responseTime"
    · rw [if_pos hrt] at h ⊢
      by_cases hobj : jTypeof expected = "object"
      · rw [if_pos hobj]
        simp only [hobj, ne_eq, not_true_eq_false, decide_False, Bool.false_or] at h
        obtain ⟨b, hb⟩ := evaluateOperators_safe _ expected h
        rw [hb]
        exact ⟨_, rfl⟩
      · rw [if_neg hobj]
        exact ⟨_, rfl⟩
    · rw [if_neg hrt] at h ⊢
      by_cases hhd : "headers.".data.isPrefixOf path.data = true
      · rw [if_pos hhd] at h ⊢
        by_cases hstr : jTypeof expected = "string"
        · rw [if_pos hstr] at h ⊢
          by_cases heq2 : jStrictEq (jGet (jGet response "headers")
              (String.mk ((path.data.drop 8).map asciiLower))) expected = true
          · rw [if_pos heq2]
            exact ⟨_, rfl⟩
          · rw [if_neg heq2]
            simp only [heq2, Bool.false_or] at h
            by_cases htr : jTruthy (jGet (jGet response "headers")
                (String.mk ((path.data.drop 8).map asciiLower))) = true
            · rw [if_pos htr]
              obtain ⟨b, hb⟩ := jIncludes_safe _ expected htr h
              rw [hb]
              exact ⟨_, rfl⟩
            · rw [if_neg htr]
              exact ⟨_, rfl⟩
        · rw [if_neg hstr] at h ⊢
          by_cases hobj : jTypeof expected = "object"
          · rw [if_pos hobj] at h ⊢
            obtain ⟨b, hb⟩ := evaluateOperators_safe _ expected h
            rw [hb]
            exact ⟨_, rfl⟩
          · rw [if_neg hobj]
            exact ⟨_, rfl⟩
      · rw [Bool.not_eq_true] at hhd
        rw [hhd] at h ⊢
        simp only [Bool.false_eq_true, if_false] at h ⊢
        by_cases hbd : "body.".data.isPrefixOf path.data = true
        · rw [hbd] at h ⊢
          simp only [if_true] at h ⊢
          by_cases hop2 : (jTypeof expected = "object" && !jIsArray expected) = true
          · rw [if_pos hop2]
            simp only [Bool.and_eq_true, decide_eq_true_eq, Bool.not_eq_true'] at hop2
            have h' : opsSafe (Utils.getNestedValue (jGet response "body")
                (String.mk (path.data.drop 5))) expected = true := by
              rcases Bool.or_eq_true_iff.mp h with h1 | h2
              · exfalso
                rcases Bool.or_eq_true_iff.mp h1 with h1a | h1b
                · rw [decide_eq_true_eq] at h1a
                  exact h1a hop2.1
                · rw [hop2.2] at h1b
                  simp at h1b
              · exact h2
            obtain ⟨b, hb⟩ := evaluateOperators_safe _ expected h'
            rw [hb]
            exact ⟨_, rfl⟩
          · rw [if_neg hop2]
            exact ⟨_, rfl⟩
        · rw [Bool.not_eq_true] at hbd
          rw [hbd]
          simp only [Bool.false_eq_true, if_false]
          exact ⟨_, rfl⟩

theorem assertLoop_safe (response : JVal) : ∀ es : List (String × JVal),
    (∀ p ∈ es, assertEntrySafe response p.1 p.2 = true) →
    ∃ rs, assertLoop response es = .ok rs := by
  intro es
  induction es with
  | nil => intro _; exact ⟨[], rfl⟩
  | cons p rest ih =>
    intro h
    obtain ⟨path, expected⟩ := p
    obtain ⟨r, hr⟩ := assertOne_safe response path expected (h _ (List.mem_cons_self _ _))
    obtain ⟨rs, hrs⟩ := ih (fun q hq => h q (List.mem_cons_of_mem _ hq))
    simp only [assertLoop]
    rw [hr]
    cases r with
    | none => exact ⟨rs, hrs⟩
    | some a =>
      rw [hrs]
      exact ⟨a :: rs, rfl⟩

/-- Claim C4 counterexample: assertion evaluation **can** throw — a
`contains` operator applied to a numeric body value calls `includes` on a
number, a `TypeError`. -/
theorem claim_C4_counterexample :
    runAssertions (.obj [("body", .obj [("x", .num 42)])])
        (.obj [("body.x", .obj [("contains", .str "4")])])
      = .error "actual.includes is not a function" := rfl

/-- Claim C4 (amended): assertion evaluation never throws on any assertion
map that is safe in the sense of `assertionsSafe` — its entries enumerate
and no expectation is `null`, and every `contains` operator (or header
string-containment) meets a falsy, string or array actual; and an
assertion whose operator object reaches an unrecognized operator key
evaluates to a failed result, not an exception. -/
theorem claim_C4_amended :
    (∀ response assertions : JVal, assertionsSafe response assertions = true →
       ∃ rs, runAssertions response assertions = .ok rs) ∧
    (∀ (actual : JVal) (op : String) (v : JVal) (rest : List (String × JVal)),
       evalOp actual op v = none →
       evaluateOperatorsGo actual ((op, v) :: rest) = .ok false) := by
  constructor
  · intro response assertions h
    unfold assertionsSafe at h
    unfold runAssertions
    cases hent : jEntries assertions with
    | error e => rw [hent] at h; simp at h
    | ok es =>
      rw [hent] at h
      exact assertLoop_safe response es (fun p hp => List.all_eq_true.mp h p hp)
  · intro actual op v rest hop
    simp only [evaluateOperatorsGo, hop]

theorem claim_C4_amended_witness :
    (∃ rs, runAssertions (.obj [("status", .num 200), ("body", .obj [("k", .str "ab")])])
        (.obj [("status", .num 200), ("body.k", .obj [("contains", .str "a")])]) = .ok rs) ∧
    evaluateOperatorsGo (.num 7) [("startsWith", .num 1), ("eq", .num 7)] = .ok false :=
  ⟨claim_C4_amended.1 (.obj [("status", .num 200), ("body", .obj [("k", .str "ab")])])
      (.obj [("status", .num 200), ("body.k", .obj [("contains", .str "a")])]) (by decide),
   claim_C4_amended.2 (.num 7) "startsWith" (.num 1) [("eq", .num 7)] rfl⟩

theorem evaluateOperatorsGo_ok_true_iff (actual : JVal) : ∀ es : List (String × JVal),
    evaluateOperatorsGo actual es = .ok true ↔
      ∀ p ∈ es, evalOp actual p.1 p.2 = some (.ok true) := by
  intro es
  induction es with
  | nil => simp [evaluateOperatorsGo]
  | cons p rest ih =>
    obtain ⟨op, v⟩ := p
    simp only [evaluateOperatorsGo]
    cases hop : evalOp actual op v with
    | none =>
      constructor
      · intro h
        simp at h
      · intro h
        have := h (op, v) (List.mem_cons_self _ _)
        rw [hop] at this
        simp at this
    | some r =>
      cases r with
      | error e =>
        constructor
        · intro h
          simp at h
        · intro h
          have := h (op, v) (List.mem_cons_self _ _)
          rw [hop] at this
          simp at this
      | ok b =>
        cases b with
        | false =>
          constructor
          · intro h
            simp at h
          · intro h
            have := h (op, v) (List.mem_cons_self _ _)
            rw [hop] at this
            simp at this
        | true =>
          rw [ih]
          constructor
          · intro h q hq
            rcases List.mem_cons.mp hq with hq1 | hq2
            · rw [hq1]
              exact hop
            · exact h q hq2
          · intro h q hq
            exact h q (List.mem_cons_of_mem _ hq)

theorem evaluateOperatorsGo_unknown (actual : JVal) :
    ∀ (pre : List (String × JVal)) (op : String) (v : JVal) (rest : List (String × JVal)),
    (∀ p ∈ pre, evalOp actual p.1 p.2 = some (.ok true)) →
    evalOp actual op v = none →
    evaluateOperatorsGo actual (pre ++ (op, v) :: rest) = .ok false := by
  intro pre
  induction pre with
  | nil =>
    intro op v rest _ hop
    simp only [List.nil_append, evaluateOperatorsGo, hop]
  | cons q pre' ih =>
    intro op v rest h hop
    obtain ⟨qop, qv⟩ := q
    have hq := h (qop, qv) (List.mem_cons_self _ _)
    rw [List.cons_append]
    simp only [evaluateOperatorsGo, hq]
    exact ih op v rest (fun p hp => h p (List.mem_cons_of_mem _ hp)) hop

/-- Claim C5 counterexample: "returns false whenever any operator key is
unknown" fails — when a `contains` operator before the unknown key throws
(here `contains` against the number 42), evaluation propagates the
exception instead of returning false. -/
theorem claim_C5_counterexample :
    evaluateOperators (.num 42) (.obj [("contains", .str "4"), ("bogus", .num 1)])
      = .error "actual.includes is not a function" := rfl

/-- Claim C5 (amended): the operator evaluator ANDs all operator entries —
it returns true iff every entry evaluates to a pass — short-circuits to
false on the first failing operator (whatever follows it), and returns
false whenever evaluation *reaches* an unknown operator key, in particular
whenever all preceding operators pass; evaluating body `\x7bcount: 42\x7d`
against `\x7b'body.count': \x7bgte: 42, lte: 42\x7d\x7d` passes. -/
theorem claim_C5_amended :
    (runAssertions (.obj [("body", .obj [("count", .num 42)])])
        (.obj [("body.count", .obj [("gte", .num 42), ("lte", .num 42)])])).map
        (List.map (fun r => r.passed)) = .ok [true] ∧
    (∀ (actual : JVal) (es : List (String × JVal)),
       evaluateOperatorsGo actual es = .ok true ↔
         ∀ p ∈ es, evalOp actual p.1 p.2 = some (.ok true)) ∧
    (∀ (actual : JVal) (op : String) (v : JVal) (rest : List (String × JVal)),
       evalOp actual op v = some (.ok false) →
       evaluateOperatorsGo actual ((op, v) :: rest) = .ok false) ∧
    (∀ (actual : JVal) (pre : List (String × JVal)) (op : String) (v : JVal)
       (rest : List (String × JVal)),
       (∀ p ∈ pre, evalOp actual p.1 p.2 = some (.ok true)) →
       evalOp actual op v = none →
       evaluateOperatorsGo actual (pre ++ (op, v) :: rest) = .ok false) := by
  refine ⟨rfl, evaluateOperatorsGo_ok_true_iff, ?_, evaluateOperatorsGo_unknown⟩
  intro actual op v rest hop
  simp only [evaluateOperatorsGo, hop]

theorem claim_C5_amended_witness :
    evaluateOperatorsGo (.num 1) [("eq", .num 2), ("bogus", .num 1)] = .ok false ∧
    evaluateOperatorsGo (.num 1) [("gte", .num 0), ("bogus", .num 1), ("contains", .num 3)]
      = .ok false := by
  constructor
  · exact claim_C5_amended.2.2.1 (.num 1) "eq" (.num 2) [("bogus", .num 1)] rfl
  · exact claim_C5_amended.2.2.2 (.num 1) [("gte", .num 0)] "bogus" (.num 1)
      [("contains", .num 3)]
      (by
        intro p hp
        simp only [List.mem_singleton] at hp
        rw [hp]
        rfl)
      rfl

theorem status_range (s : Int) :
    (jGeB (.num s) (.num 200) && jLtB (.num s) (.num 400)) = true ↔
      200 ≤ s ∧ s < 400 := by
  simp only [jGeB, jLtB, jLtE, toPrimitive, toNumber, Option.getD_some,
    Bool.and_eq_true, Bool.not_eq_true', decide_eq_false_iff_not, decide_eq_true_eq]
  omega

/-- Claim C9 counterexample: after a successful dispatch with an assert
map present, assertion evaluation can throw (`contains` on a number); the
result then has an **empty** assertion list — so "every AssertionResult
passed" holds vacuously — while `passed` is false, refuting the claimed
biconditional.  The recorded response shows that dispatch succeeded. -/
theorem claim_C9_counterexample :
    (runStep emptyProcEnv c9Client "" (.obj [("env", .obj [])]) c9Request).1.assertions = [] ∧
    (runStep emptyProcEnv c9Client "" (.obj [("env", .obj [])]) c9Request).1.passed = false ∧
    (runStep emptyProcEnv c9Client "" (.obj [("env", .obj [])]) c9Request).1.response
      = some (.obj [("status", .num 200), ("body", .obj [("x", .num 42)])]) ∧
    (runStep emptyProcEnv c9Client "" (.obj [("env", .obj [])]) c9Request).1.error
      = some "actual.includes is not a function" :=
  ⟨rfl, rfl, rfl, rfl⟩

/-- Claim C9 (amended): for a request that dispatches successfully — when
the interpolated request has no (truthy) assert map, `passed` is true iff
the response status is an integer in `[200, 400)`; when an assert map is
present and assertion evaluation completes without throwing, `passed` is
true iff every `AssertionResult` passed; when assertion evaluation throws,
`passed` is false and the assertion list is left empty. -/
theorem claim_C9_amended (procEnv : String → Option String) (client : HttpClient)
    (baseUrl : String) (ctx request url response : JVal)
    (hurl : resolveUrl procEnv baseUrl ctx
        (jGet (interpolateObject procEnv request ctx) "url") = .ok url)
    (hcl : client (effMethod (interpolateObject procEnv request ctx)) url
        (buildOptions (interpolateObject procEnv request ctx)) = .ok response) :
    (∀ s : Int, jGet response "status" = .num s →
       jTruthy (jGet (interpolateObject procEnv request ctx) "assert") = false →
       ((runStep procEnv client baseUrl ctx request).1.passed = true ↔
          200 ≤ s ∧ s < 400)) ∧
    (∀ results : List AssertionResult,
       jTruthy (jGet (interpolateObject procEnv request ctx) "assert") = true →
       runAssertions response (jGet (interpolateObject procEnv request ctx) "assert")
         = .ok results →
       ((runStep procEnv client baseUrl ctx request).1.passed = true ↔
          ∀ a ∈ results, a.passed = true)) ∧
    (∀ e : String,
       jTruthy (jGet (interpolateObject procEnv request ctx) "assert") = true →
       runAssertions response (jGet (interpolateObject procEnv request ctx) "assert")
         = .error e →
       (runStep procEnv client baseUrl ctx request).1.passed = false ∧
       (runStep procEnv client baseUrl ctx request).1.assertions = []) := by
  have hstep : runStep procEnv client baseUrl ctx request =
      (let interp := interpolateObject procEnv request ctx
       let ctx' := jSet ctx (jToString (jGet request "name")) (.obj [("response", response)])
       if jTruthy (jGet interp "assert") then
         match runAssertions response (jGet interp "assert") with
         | .error e => (⟨jGet request "name", false, [], some e, some response⟩, ctx')
         | .ok results =>
             (⟨jGet request "name", results.all (fun a => a.passed), results, none,
               some response⟩, ctx')
       else
         (⟨jGet request "name",
           jGeB (jGet response "status") (.num 200) && jLtB (jGet response "status") (.num 400),
           [], none, some response⟩, ctx')) := by
    unfold runStep
    dsimp only
    rw [hurl]
    dsimp only
    rw [hcl]
  refine ⟨?_, ?_, ?_⟩
  · intro s hs hna
    rw [hstep]
    simp only [hna, hs, Bool.false_eq_true, if_false]
    exact status_range s
  · intro results ha hra
    rw [hstep]
    simp only [ha, if_true, hra]
    exact List.all_eq_true
  · intro e ha hre
    rw [hstep]
    simp only [ha, if_true, hre]
    constructor <;> trivial

theorem claim_C9_amended_witness :
    ((runStep emptyProcEnv c9Client ""
        (.obj [("env", .obj [])]) (.obj [("name", .str "plain"), ("url", .str "http://a/x")])).1.passed
      = true ↔ (200 : Int) ≤ 200 ∧ (200 : Int) < 400) ∧
    (runStep emptyProcEnv c9Client "" (.obj [("env", .obj [])]) c9Request).1.passed = false :=
  ⟨(claim_C9_amended emptyProcEnv c9Client "" (.obj [("env", .obj [])])
      (.obj [("name", .str "plain"), ("url", .str "http://a/x")]) (.str "http://a/x")
      (.obj [("status", .num 200), ("body", .obj [("x", .num 42)])]) rfl rfl).1 200 rfl rfl,
   ((claim_C9_amended emptyProcEnv c9Client "" (.obj [("env", .obj [])])
      c9Request (.str "http://a/x")
      (.obj [("status", .num 200), ("body", .obj [("x", .num 42)])]) rfl rfl).2.2
      "actual.includes is not a function" rfl rfl).1⟩

end Mpx
